import Mathlib

/-!
Shallow embedding of the `Hooks` registry (a WordPress-style actions/filters
hook system in JavaScript) and proofs about its specification.

Modelling conventions:
* JavaScript callback references are opaque; they are modelled as `Nat`
  identifiers, compared by identity (`!==` becomes `!=` on the identifier).
* The two JS objects `this.actions` and `this.filters` map tag strings to
  arrays of entries; an object with no property for a tag yields `undefined`,
  modelled as `none`, while a present (possibly empty) array is `some list`.
  Note an empty JS array is truthy, so `!this.actions[tag]` is exactly
  "the lookup returned `undefined`", i.e. `none`.
* `Array.prototype.sort` with comparator `(a, b) => a.priority - b.priority`
  is, per the ECMAScript specification (ES2019 and later), a stable in-place
  ascending sort by `priority`.  It is modelled as `List.mergeSort` with the
  boolean order `leP`, and the in-place mutation is made explicit at the call
  sites (`doAction`, `applyFilters`) by writing the sorted list back into the
  registry state.
* A callback invoked during dispatch may re-enter the registry.  Action
  callbacks are therefore interpreted by an environment assigning to each
  callback identifier the finite list of registry commands (`Cmd`) it performs
  when invoked, possibly ending in a raised error; filter callbacks
  additionally transform the threaded value.
-/

namespace JsHooks

open List

/-- An entry of a tag's registration array: the literal `{ priority, callback }`
pushed by `addAction` / `addFilter`. -/
structure Entry where
  priority : Int
  callback : Nat
deriving DecidableEq

/-- The registry state: the two mappings `this.actions` and `this.filters`
created in the `Hooks` constructor. -/
structure Hooks where
  actions : String → Option (List Entry)
  filters : String → Option (List Entry)

/-- The state built by the `Hooks` constructor: both mappings empty. -/
def initHooks : Hooks := ⟨fun _ => none, fun _ => none⟩

/-- Property assignment `this.actions[tag] = l`. -/
def setActions (s : Hooks) (tag : String) (l : List Entry) : Hooks :=
  { s with actions := fun t => if t = tag then some l else s.actions t }

/-- Property assignment `this.filters[tag] = l`. -/
def setFilters (s : Hooks) (tag : String) (l : List Entry) : Hooks :=
  { s with filters := fun t => if t = tag then some l else s.filters t }

/-- `addAction(tag, callback, priority)`: `this.actions[tag] = this.actions[tag] || [];
this.actions[tag].push({ priority, callback })`. -/
def addAction (s : Hooks) (tag : String) (callback : Nat) (priority : Int) : Hooks :=
  setActions s tag ((s.actions tag).getD [] ++ [⟨priority, callback⟩])

/-- `addAction(tag, callback)` with the `priority` argument omitted: the JS
default parameter `priority = 10` applies. -/
def addActionDefault (s : Hooks) (tag : String) (callback : Nat) : Hooks :=
  addAction s tag callback 10

/-- `addFilter(tag, callback, priority)`: `this.filters[tag] = this.filters[tag] || [];
this.filters[tag].push({ priority, callback })`. -/
def addFilter (s : Hooks) (tag : String) (callback : Nat) (priority : Int) : Hooks :=
  setFilters s tag ((s.filters tag).getD [] ++ [⟨priority, callback⟩])

/-- `addFilter(tag, callback)` with the `priority` argument omitted (default 10). -/
def addFilterDefault (s : Hooks) (tag : String) (callback : Nat) : Hooks :=
  addFilter s tag callback 10

/-- `removeAction(tag, callback)`: early return when the lookup is `undefined`,
otherwise `this.actions[tag] = this.actions[tag].filter(a => a.callback !== callback)`. -/
def removeAction (s : Hooks) (tag : String) (callback : Nat) : Hooks :=
  match s.actions tag with
  | none => s
  | some l => setActions s tag (l.filter (fun e => e.callback != callback))

/-- `removeFilter(tag, callback)`: symmetric to `removeAction` on `this.filters`. -/
def removeFilter (s : Hooks) (tag : String) (callback : Nat) : Hooks :=
  match s.filters tag with
  | none => s
  | some l => setFilters s tag (l.filter (fun e => e.callback != callback))

/-- `hasAction(tag)`: `!!this.actions[tag] && this.actions[tag].length > 0`
(an absent tag gives `undefined`, hence `false`; a present array, even empty,
is truthy, so the length test decides). -/
def hasAction (s : Hooks) (tag : String) : Bool :=
  match s.actions tag with
  | none => false
  | some l => decide (0 < l.length)

/-- `hasFilter(tag)`: `!!this.filters[tag] && this.filters[tag].length > 0`. -/
def hasFilter (s : Hooks) (tag : String) : Bool :=
  match s.filters tag with
  | none => false
  | some l => decide (0 < l.length)

/-- The boolean order used by the comparator `(a, b) => a.priority - b.priority`:
`a` may precede `b` exactly when `a.priority - b.priority <= 0`. -/
def leP (a b : Entry) : Bool := a.priority ≤ b.priority

/-- The sorting step of `_getSortedCallbacks`: `hooks.sort((a, b) => a.priority - b.priority)`,
a stable ascending sort by priority. -/
def getSortedEntries (hooks : List Entry) : List Entry := hooks.mergeSort leP

/-- `_getSortedCallbacks(hooks)`: `hooks.sort(...).map(hook => hook.callback)`.
(The `sort` also mutates the stored array; that mutation is performed at the
call sites via `setActions` / `setFilters`.) -/
def getSortedCallbacks (hooks : List Entry) : List Nat :=
  (getSortedEntries hooks).map Entry.callback

/-- A registry command a re-entrant callback may perform during its invocation:
one of the four mutating operations, or raising an error (modelled by an
error code). -/
inductive Cmd where
  | addA (tag : String) (cb : Nat) (p : Int)
  | addF (tag : String) (cb : Nat) (p : Int)
  | remA (tag : String) (cb : Nat)
  | remF (tag : String) (cb : Nat)
  | throwE (e : Nat)
deriving DecidableEq

/-- Effect of one command on the registry state, with the error it raises,
if any. -/
def execCmd (s : Hooks) : Cmd → Hooks × Option Nat
  | .addA tag cb p => (addAction s tag cb p, none)
  | .addF tag cb p => (addFilter s tag cb p, none)
  | .remA tag cb => (removeAction s tag cb, none)
  | .remF tag cb => (removeFilter s tag cb, none)
  | .throwE e => (s, some e)

/-- Run a list of commands in order; a raised error aborts the rest. -/
def execCmds (s : Hooks) : List Cmd → Hooks × Option Nat
  | [] => (s, none)
  | c :: cs =>
    match execCmd s c with
    | (s', none) => execCmds s' cs
    | (s', some e) => (s', some e)

/-- An environment interpreting each action-callback identifier as the list of
registry commands it performs when invoked. -/
abbrev Env := Nat → List Cmd

/-- Invoking action callback `cb` (the call `callback(options)` in `forEach`). -/
def runCallback (env : Env) (s : Hooks) (cb : Nat) : Hooks × Option Nat :=
  execCmds s (env cb)

/-- Observation of one dispatch: the callbacks invoked in order, the final
registry state, and the raised error if one aborted the iteration. -/
structure DispatchResult where
  trace : List Nat
  state : Hooks
  err : Option Nat

/-- The `actions.forEach(callback => callback(options))` loop: invoke each
callback in order; an uncaught error aborts the remaining iterations and
propagates. -/
def runCallbacks (env : Env) : List Nat → Hooks → DispatchResult
  | [], s => ⟨[], s, none⟩
  | cb :: cs, s =>
    match runCallback env s cb with
    | (s', none) =>
      let r := runCallbacks env cs s'
      ⟨cb :: r.trace, r.state, r.err⟩
    | (s', some e) => ⟨[cb], s', some e⟩

/-- `doAction(tag, options)`: early return when the lookup is `undefined`;
otherwise sort the stored array in place, map out the callbacks, and invoke
them in order. -/
def doAction (env : Env) (s : Hooks) (tag : String) : DispatchResult :=
  match s.actions tag with
  | none => ⟨[], s, none⟩
  | some l =>
    runCallbacks env ((getSortedEntries l).map Entry.callback)
      (setActions s tag (getSortedEntries l))

/-- `applyFilters(tag, value, options)` for pure filter callbacks, interpreted
by `interp`: early return of `value` when the lookup is `undefined`; otherwise
sort the stored array in place and fold `value = callback(value, options)`
over the sorted callbacks.  Returns the final value and the registry state
(changed only by the in-place sort). -/
def applyFilters {α : Type} (interp : Nat → α → α) (s : Hooks) (tag : String)
    (value : α) : α × Hooks :=
  match s.filters tag with
  | none => (value, s)
  | some l =>
    (((getSortedEntries l).map Entry.callback).foldl (fun v cb => interp cb v) value,
      setFilters s tag (getSortedEntries l))

/-- An environment for effectful filter callbacks: given the threaded value,
the registry commands the callback performs and the value it returns. -/
abbrev FEnv (α : Type) := Nat → α → List Cmd × α

/-- Observation of one filter dispatch with effectful callbacks. -/
structure FDispatchResult (α : Type) where
  trace : List Nat
  value : α
  state : Hooks
  err : Option Nat

/-- The `filters.forEach(callback => { value = callback(value, options) })`
loop for effectful callbacks: each invocation performs its registry commands;
if it raises, the assignment to `value` does not happen and the error aborts
the remaining iterations. -/
def runFCallbacks {α : Type} (fenv : FEnv α) : List Nat → α → Hooks → FDispatchResult α
  | [], v, s => ⟨[], v, s, none⟩
  | cb :: cs, v, s =>
    match execCmds s (fenv cb v).1 with
    | (s', none) =>
      let r := runFCallbacks fenv cs (fenv cb v).2 s'
      ⟨cb :: r.trace, r.value, r.state, r.err⟩
    | (s', some e) => ⟨[cb], v, s', some e⟩

/-- `applyFilters(tag, value, options)` for effectful (possibly re-entrant or
throwing) filter callbacks. -/
def applyFiltersM {α : Type} (fenv : FEnv α) (s : Hooks) (tag : String)
    (value : α) : FDispatchResult α :=
  match s.filters tag with
  | none => ⟨[], value, s, none⟩
  | some l =>
    runFCallbacks fenv ((getSortedEntries l).map Entry.callback) value
      (setFilters s tag (getSortedEntries l))

/-! ### Facts about the comparator and the stable sort -/

theorem leP_trans : ∀ (a b c : Entry), leP a b → leP b c → leP a c := by
  intro a b c hab hbc
  simp only [leP, decide_eq_true_eq] at *
  omega

theorem leP_total : ∀ (a b : Entry), leP a b || leP b a := by
  intro a b
  simp only [leP, Bool.or_eq_true, decide_eq_true_eq]
  omega

/-- The sub-sequence of a list of entries at one given priority. -/
def classOf (p : Int) (l : List Entry) : List Entry :=
  l.filter (fun e => decide (e.priority = p))

theorem classOf_append (p : Int) (l₁ l₂ : List Entry) :
    classOf p (l₁ ++ l₂) = classOf p l₁ ++ classOf p l₂ := by
  simp [classOf]

theorem classOf_filter (p : Int) (q : Entry → Bool) (l : List Entry) :
    classOf p (l.filter q) = (classOf p l).filter q := by
  simp [classOf, List.filter_filter, Bool.and_comm]

theorem getSortedEntries_perm (l : List Entry) : getSortedEntries l ~ l :=
  List.mergeSort_perm l leP

theorem sorted_getSortedEntries (l : List Entry) :
    (getSortedEntries l).Pairwise (fun a b => a.priority ≤ b.priority) := by
  have h := List.sorted_mergeSort leP_trans leP_total l
  exact h.imp (by intro a b hab; simpa [leP] using hab)

/-- Stability of the sort, in per-priority form: sorting does not change the
sub-sequence of entries at any fixed priority. -/
theorem classOf_getSortedEntries (p : Int) (l : List Entry) :
    classOf p (getSortedEntries l) = classOf p l := by
  have hsub : classOf p l <+ List.mergeSort l leP := by
    refine List.sublist_mergeSort leP_trans leP_total ?_ (List.filter_sublist l)
    refine List.pairwise_of_forall_mem_list ?_
    intro a ha b hb
    have hpa := (List.mem_filter.mp ha).2
    have hpb := (List.mem_filter.mp hb).2
    simp only [decide_eq_true_eq] at hpa hpb
    simp [leP, hpa, hpb]
  have hsub2 := hsub.filter (fun e => decide (e.priority = p))
  have hcl : (classOf p l).filter (fun e => decide (e.priority = p)) = classOf p l :=
    List.filter_eq_self.mpr (fun a ha => (List.mem_filter.mp ha).2)
  rw [hcl] at hsub2
  have hperm : classOf p (getSortedEntries l) ~ classOf p l :=
    (List.mergeSort_perm l leP).filter _
  exact (hsub2.eq_of_length hperm.length_eq.symm).symm

/-! ### Lookup lemmas for the state updates -/

@[simp] theorem setActions_actions (s : Hooks) (tag : String) (l : List Entry) (t : String) :
    (setActions s tag l).actions t = if t = tag then some l else s.actions t := rfl

@[simp] theorem setActions_filters (s : Hooks) (tag : String) (l : List Entry) (t : String) :
    (setActions s tag l).filters t = s.filters t := rfl

@[simp] theorem setFilters_filters (s : Hooks) (tag : String) (l : List Entry) (t : String) :
    (setFilters s tag l).filters t = if t = tag then some l else s.filters t := rfl

@[simp] theorem setFilters_actions (s : Hooks) (tag : String) (l : List Entry) (t : String) :
    (setFilters s tag l).actions t = s.actions t := rfl

/-! ### Trace lemmas for the dispatch loop -/

theorem runCallbacks_err_none (env : Env) :
    ∀ (cs : List Nat) (s : Hooks), (runCallbacks env cs s).err = none →
      (runCallbacks env cs s).trace = cs
  | [], _, _ => rfl
  | cb :: cs, s, h => by
    cases hrc : runCallback env s cb with
    | mk s' o =>
      cases o with
      | none =>
        have h' : (runCallbacks env cs s').err = none := by
          simpa [runCallbacks, hrc] using h
        simp [runCallbacks, hrc, runCallbacks_err_none env cs s' h']
      | some e => simp [runCallbacks, hrc] at h

theorem runCallbacks_trace_take (env : Env) :
    ∀ (cs : List Nat) (s : Hooks), ∃ k, (runCallbacks env cs s).trace = cs.take k
  | [], _ => ⟨0, rfl⟩
  | cb :: cs, s => by
    cases hrc : runCallback env s cb with
    | mk s' o =>
      cases o with
      | none =>
        obtain ⟨k, hk⟩ := runCallbacks_trace_take env cs s'
        exact ⟨k + 1, by simp [runCallbacks, hrc, hk]⟩
      | some e => exact ⟨1, by simp [runCallbacks, hrc]⟩

theorem runCallbacks_pure (env : Env) (hp : ∀ cb, env cb = []) :
    ∀ (cs : List Nat) (s : Hooks), runCallbacks env cs s = ⟨cs, s, none⟩
  | [], _ => rfl
  | cb :: cs, s => by
    have hrc : runCallback env s cb = (s, none) := by
      simp [runCallback, hp, execCmds]
    simp [runCallbacks, hrc, runCallbacks_pure env hp cs s]

theorem runCallbacks_err_some (env : Env) :
    ∀ (cs : List Nat) (s : Hooks) (e : Nat), (runCallbacks env cs s).err = some e →
      ∃ k, ∃ h : k < cs.length,
        (runCallbacks env cs s).trace = cs.take (k + 1) ∧
        (runCallback env (runCallbacks env (cs.take k) s).state (cs.get ⟨k, h⟩)).2 = some e
  | [], _, e, h => by simp [runCallbacks] at h
  | cb :: cs, s, e, h => by
    cases hrc : runCallback env s cb with
    | mk s' o =>
      cases o with
      | some e0 =>
        have he : e0 = e := by
          have := h
          simp only [runCallbacks, hrc] at this
          simpa using this
        refine ⟨0, by simp, ?_, ?_⟩
        · simp [runCallbacks, hrc]
        · simpa [runCallbacks, hrc] using he
      | none =>
        have h' : (runCallbacks env cs s').err = some e := by
          have := h
          simp only [runCallbacks, hrc] at this
          simpa using this
        obtain ⟨k, hk, ht, hc⟩ := runCallbacks_err_some env cs s' e h'
        refine ⟨k + 1, by simpa using Nat.succ_lt_succ hk, ?_, ?_⟩
        · simp [runCallbacks, hrc, ht]
        · simpa [runCallbacks, hrc] using hc

theorem runFCallbacks_err_none {α : Type} (fenv : FEnv α) :
    ∀ (cs : List Nat) (v : α) (s : Hooks), (runFCallbacks fenv cs v s).err = none →
      (runFCallbacks fenv cs v s).trace = cs
  | [], _, _, _ => rfl
  | cb :: cs, v, s, h => by
    cases hrc : execCmds s (fenv cb v).1 with
    | mk s' o =>
      cases o with
      | none =>
        have h' : (runFCallbacks fenv cs (fenv cb v).2 s').err = none := by
          simpa [runFCallbacks, hrc] using h
        simp [runFCallbacks, hrc, runFCallbacks_err_none fenv cs (fenv cb v).2 s' h']
      | some e => simp [runFCallbacks, hrc] at h

theorem runFCallbacks_trace_take {α : Type} (fenv : FEnv α) :
    ∀ (cs : List Nat) (v : α) (s : Hooks), ∃ k,
      (runFCallbacks fenv cs v s).trace = cs.take k
  | [], _, _ => ⟨0, rfl⟩
  | cb :: cs, v, s => by
    cases hrc : execCmds s (fenv cb v).1 with
    | mk s' o =>
      cases o with
      | none =>
        obtain ⟨k, hk⟩ := runFCallbacks_trace_take fenv cs (fenv cb v).2 s'
        exact ⟨k + 1, by simp [runFCallbacks, hrc, hk]⟩
      | some e => exact ⟨1, by simp [runFCallbacks, hrc]⟩

theorem runFCallbacks_err_some {α : Type} (fenv : FEnv α) :
    ∀ (cs : List Nat) (v : α) (s : Hooks) (e : Nat),
      (runFCallbacks fenv cs v s).err = some e →
      ∃ k, ∃ h : k < cs.length,
        (runFCallbacks fenv cs v s).trace = cs.take (k + 1) ∧
        (execCmds (runFCallbacks fenv (cs.take k) v s).state
          (fenv (cs.get ⟨k, h⟩) (runFCallbacks fenv (cs.take k) v s).value).1).2 = some e
  | [], _, _, e, h => by simp [runFCallbacks] at h
  | cb :: cs, v, s, e, h => by
    cases hrc : execCmds s (fenv cb v).1 with
    | mk s' o =>
      cases o with
      | some e0 =>
        have he : e0 = e := by
          have := h
          simp only [runFCallbacks, hrc] at this
          simpa using this
        refine ⟨0, by simp, ?_, ?_⟩
        · simp [runFCallbacks, hrc]
        · simpa [runFCallbacks, hrc] using he
      | none =>
        have h' : (runFCallbacks fenv cs (fenv cb v).2 s').err = some e := by
          have := h
          simp only [runFCallbacks, hrc] at this
          simpa using this
        obtain ⟨k, hk, ht, hc⟩ := runFCallbacks_err_some fenv cs (fenv cb v).2 s' e h'
        refine ⟨k + 1, by simpa using Nat.succ_lt_succ hk, ?_, ?_⟩
        · simp [runFCallbacks, hrc, ht]
        · simpa [runFCallbacks, hrc] using hc

/-! ### Dispatch-level helper lemmas -/

@[simp] theorem getSortedEntries_nil : getSortedEntries [] = [] := by
  simp [getSortedEntries]

@[simp] theorem getSortedCallbacks_nil : getSortedCallbacks [] = [] := by
  simp [getSortedCallbacks]

theorem doAction_trace_of_err_none (env : Env) (s : Hooks) (tag : String)
    (h : (doAction env s tag).err = none) :
    (doAction env s tag).trace = getSortedCallbacks ((s.actions tag).getD []) := by
  cases ha : s.actions tag with
  | none => simp [doAction, ha]
  | some l =>
    have h' := h
    simp only [doAction, ha] at h' ⊢
    simpa [getSortedCallbacks] using runCallbacks_err_none env _ _ h'

theorem doAction_trace_take (env : Env) (s : Hooks) (tag : String) :
    ∃ k, (doAction env s tag).trace = (getSortedCallbacks ((s.actions tag).getD [])).take k := by
  cases ha : s.actions tag with
  | none => exact ⟨0, by simp [doAction, ha]⟩
  | some l =>
    obtain ⟨k, hk⟩ := runCallbacks_trace_take env ((getSortedEntries l).map Entry.callback)
      (setActions s tag (getSortedEntries l))
    exact ⟨k, by simpa [doAction, ha, getSortedCallbacks] using hk⟩

theorem applyFiltersM_trace_of_err_none {α : Type} (fenv : FEnv α) (s : Hooks)
    (tag : String) (v : α) (h : (applyFiltersM fenv s tag v).err = none) :
    (applyFiltersM fenv s tag v).trace = getSortedCallbacks ((s.filters tag).getD []) := by
  cases hf : s.filters tag with
  | none => simp [applyFiltersM, hf]
  | some l =>
    have h' := h
    simp only [applyFiltersM, hf] at h' ⊢
    simpa [getSortedCallbacks] using runFCallbacks_err_none fenv _ _ _ h'

theorem applyFiltersM_trace_take {α : Type} (fenv : FEnv α) (s : Hooks)
    (tag : String) (v : α) :
    ∃ k, (applyFiltersM fenv s tag v).trace
      = (getSortedCallbacks ((s.filters tag).getD [])).take k := by
  cases hf : s.filters tag with
  | none => exact ⟨0, by simp [applyFiltersM, hf]⟩
  | some l =>
    obtain ⟨k, hk⟩ := runFCallbacks_trace_take fenv ((getSortedEntries l).map Entry.callback)
      v (setFilters s tag (getSortedEntries l))
    exact ⟨k, by simpa [applyFiltersM, hf, getSortedCallbacks] using hk⟩

/-- Characterisation of the sort on a two-element list whose first entry does
not precede the second: the stable sort swaps them. -/
theorem getSortedEntries_pair_swap (a b : Entry) (hab : leP a b = false) :
    getSortedEntries [a, b] = [b, a] := by
  obtain ⟨l₁, l₂, h1, h2, _⟩ := List.mergeSort_cons leP_trans leP_total a [b]
  rw [List.mergeSort_singleton] at h2
  rcases l₁ with _ | ⟨x, l₁'⟩
  · exfalso
    have hs : ([a, b].mergeSort leP).Pairwise (fun x y => leP x y = true) :=
      List.sorted_mergeSort leP_trans leP_total [a, b]
    rw [h1] at hs
    simp only [List.nil_append] at h2 hs
    subst h2
    simp only [List.pairwise_cons] at hs
    have := hs.1 b (by simp)
    rw [hab] at this
    exact Bool.false_ne_true this
  · have hx : b = x ∧ [] = l₁' ++ l₂ := by
      simpa using congrArg id h2
    obtain ⟨rfl, h0⟩ := hx
    obtain ⟨h1', h2'⟩ := (List.append_eq_nil).mp h0.symm
    subst h1'
    subst h2'
    simpa [getSortedEntries] using h1

/-- Characterisation of the sort on a two-element list already in order. -/
theorem getSortedEntries_pair_keep (a b : Entry) (hab : leP a b = true) :
    getSortedEntries [a, b] = [a, b] := by
  refine List.mergeSort_of_sorted ?_
  simp only [List.pairwise_cons, List.mem_singleton, List.not_mem_nil]
  refine ⟨?_, ?_, List.Pairwise.nil⟩
  · intro a' ha'
    subst ha'
    exact hab
  · intro a' ha'
    simp at ha'

/-! ### Claim theorems -/

/-- C9: for every tag (any string, including the empty one), callback and
priority, `addAction` / `addFilter` append exactly one new entry with that
priority and callback at the end of the tag's sequence, creating the sequence
if absent, deduplicating nothing (the count of the entry grows by one even if
the callback was already registered), leaving every other tag and the other
mapping untouched; and omitting the priority argument stores priority 10. -/
theorem addAction_appends_entry (s : Hooks) (tag : String) (cb : Nat) (p : Int) :
    (addAction s tag cb p).actions tag = some ((s.actions tag).getD [] ++ [⟨p, cb⟩])
    ∧ (∀ t, t ≠ tag → (addAction s tag cb p).actions t = s.actions t)
    ∧ (∀ t, (addAction s tag cb p).filters t = s.filters t)
    ∧ addActionDefault s tag cb = addAction s tag cb 10
    ∧ (((addAction s tag cb p).actions tag).getD []).count ⟨p, cb⟩
        = ((s.actions tag).getD []).count ⟨p, cb⟩ + 1
    ∧ (addFilter s tag cb p).filters tag = some ((s.filters tag).getD [] ++ [⟨p, cb⟩])
    ∧ (∀ t, t ≠ tag → (addFilter s tag cb p).filters t = s.filters t)
    ∧ (∀ t, (addFilter s tag cb p).actions t = s.actions t)
    ∧ addFilterDefault s tag cb = addFilter s tag cb 10 := by
  refine ⟨by simp [addAction], ?_, by simp [addAction], rfl, ?_, by simp [addFilter], ?_,
    by simp [addFilter], rfl⟩
  · intro t ht
    simp [addAction, ht]
  · simp [addAction]
  · intro t ht
    simp [addFilter, ht]

/-- Witness for C9 at a concrete input: registering callback 3 at priority 5
under `x` on the empty registry stores exactly one entry, leaves tag `y`
absent, and the omitted-priority form stores priority 10. -/
theorem addAction_appends_entry_witness :
    (addAction initHooks "x" 3 5).actions "x" = some [⟨5, 3⟩]
    ∧ (addAction initHooks "x" 3 5).actions "y" = none
    ∧ (addActionDefault initHooks "x" 3).actions "x" = some [⟨10, 3⟩] := by
  have h := addAction_appends_entry initHooks "x" 3 5
  have h10 := addAction_appends_entry initHooks "x" 3 10
  refine ⟨by simpa [initHooks] using h.1, ?_, ?_⟩
  · simpa using h.2.1 "y" (by decide)
  · rw [h.2.2.2.1]
    simpa [initHooks] using h10.1

/-- C10: `hasAction tag` is true exactly when the actions mapping has a
non-empty sequence for the tag, `hasFilter` likewise for the filters mapping,
and on the freshly constructed registry (no tag ever registered) both return
false. -/
theorem hasAction_hasFilter_iff (s : Hooks) (tag : String) :
    (hasAction s tag = true ↔ ∃ l, s.actions tag = some l ∧ l ≠ [])
    ∧ (hasFilter s tag = true ↔ ∃ l, s.filters tag = some l ∧ l ≠ [])
    ∧ hasAction initHooks tag = false
    ∧ hasFilter initHooks tag = false := by
  refine ⟨?_, ?_, rfl, rfl⟩
  · cases h : s.actions tag with
    | none => simp [hasAction, h]
    | some l => simp [hasAction, h, List.length_pos]
  · cases h : s.filters tag with
    | none => simp [hasFilter, h]
    | some l => simp [hasFilter, h, List.length_pos]

/-- C5: `removeAction tag cb` (and symmetrically `removeFilter`) removes every
entry under the tag whose callback equals `cb`, whatever its priority, keeps
all other entries in order (the new sequence is the filter of the old one),
leaves other tags and the other mapping untouched, and is a no-op without
error when the tag has no sequence. -/
theorem removeAction_removes_all (s : Hooks) (tag : String) (cb : Nat) :
    (s.actions tag = none → removeAction s tag cb = s)
    ∧ (∀ l, s.actions tag = some l →
        (removeAction s tag cb).actions tag = some (l.filter (fun e => e.callback != cb)))
    ∧ (∀ t, t ≠ tag → (removeAction s tag cb).actions t = s.actions t)
    ∧ (∀ t, (removeAction s tag cb).filters t = s.filters t)
    ∧ (∀ l e, (removeAction s tag cb).actions tag = some l → e ∈ l → e.callback ≠ cb)
    ∧ (s.filters tag = none → removeFilter s tag cb = s)
    ∧ (∀ l, s.filters tag = some l →
        (removeFilter s tag cb).filters tag = some (l.filter (fun e => e.callback != cb)))
    ∧ (∀ t, t ≠ tag → (removeFilter s tag cb).filters t = s.filters t)
    ∧ (∀ t, (removeFilter s tag cb).actions t = s.actions t) := by
  refine ⟨?_, ?_, ?_, ?_, ?_, ?_, ?_, ?_, ?_⟩
  · intro h
    simp [removeAction, h]
  · intro l h
    simp [removeAction, h]
  · intro t ht
    cases h : s.actions tag with
    | none => simp [removeAction, h]
    | some l => simp [removeAction, h, ht]
  · intro t
    cases h : s.actions tag with
    | none => simp [removeAction, h]
    | some l => simp [removeAction, h]
  · intro l e hl he
    cases h : s.actions tag with
    | none =>
      rw [removeAction, h] at hl
      rw [h] at hl
      exact absurd hl (by simp)
    | some l0 =>
      rw [removeAction, h] at hl
      simp only [setActions_actions, eq_self_iff_true, if_true, Option.some.injEq] at hl
      subst hl
      have := (List.mem_filter.mp he).2
      simpa using this
  · intro h
    simp [removeFilter, h]
  · intro l h
    simp [removeFilter, h]
  · intro t ht
    cases h : s.filters tag with
    | none => simp [removeFilter, h]
    | some l => simp [removeFilter, h, ht]
  · intro t
    cases h : s.filters tag with
    | none => simp [removeFilter, h]
    | some l => simp [removeFilter, h]

/-- Witness for C5 at a concrete input: registering callback 7 twice under `x`
at different priorities and removing once deletes both entries, and removing
from an absent tag is a no-op. -/
theorem removeAction_removes_all_witness :
    (removeAction (addAction (addAction initHooks "x" 7 1) "x" 7 2) "x" 7).actions "x"
      = some []
    ∧ removeAction initHooks "y" 7 = initHooks := by
  have h := removeAction_removes_all (addAction (addAction initHooks "x" 7 1) "x" 7 2) "x" 7
  have h2 := removeAction_removes_all initHooks "y" 7
  refine ⟨?_, h2.1 rfl⟩
  exact (h.2.1 [⟨1, 7⟩, ⟨2, 7⟩] (by decide)).trans (by decide)

/-- C7: every read operation treats a tag absent from the mapping and a tag
mapped to the empty sequence identically: `doAction` invokes nothing and leaves
every stored sequence unchanged, `applyFilters` returns its value argument and
leaves every stored sequence unchanged, and `hasAction` / `hasFilter` return
false, in both situations. -/
theorem reads_treat_absent_as_empty {α : Type} (interp : Nat → α → α) (env : Env)
    (s : Hooks) (tag : String) (v : α) :
    ((s.actions tag = none ∨ s.actions tag = some []) →
      (doAction env s tag).trace = []
      ∧ (doAction env s tag).err = none
      ∧ (∀ t, (doAction env s tag).state.actions t = s.actions t)
      ∧ (∀ t, (doAction env s tag).state.filters t = s.filters t)
      ∧ hasAction s tag = false)
    ∧ ((s.filters tag = none ∨ s.filters tag = some []) →
      (applyFilters interp s tag v).1 = v
      ∧ (∀ t, (applyFilters interp s tag v).2.actions t = s.actions t)
      ∧ (∀ t, (applyFilters interp s tag v).2.filters t = s.filters t)
      ∧ hasFilter s tag = false) := by
  constructor
  · rintro (h | h)
    · refine ⟨?_, ?_, ?_, ?_, ?_⟩ <;> simp [doAction, h, hasAction]
    · have hd : doAction env s tag = ⟨[], setActions s tag [], none⟩ := by
        simp [doAction, h, runCallbacks]
      refine ⟨by simp [hd], by simp [hd], ?_, by simp [hd], by simp [hasAction, h]⟩
      intro t
      by_cases ht : t = tag
      · subst ht
        simp [hd, h]
      · simp [hd, ht]
  · rintro (h | h)
    · exact ⟨by simp [applyFilters, h], by simp [applyFilters, h],
        by simp [applyFilters, h], by simp [hasFilter, h]⟩
    · have hd : applyFilters interp s tag v = (v, setFilters s tag []) := by
        simp [applyFilters, h]
      refine ⟨by simp [hd], by simp [hd], ?_, by simp [hasFilter, h]⟩
      intro t
      by_cases ht : t = tag
      · subst ht
        simp [hd, h]
      · simp [hd, ht]

/-- Witness for C7 at a concrete input: a state whose tag `x` holds an empty
action sequence (after add-then-remove) and no filter sequence behaves as the
absent case: `hasAction` is false, `doAction` invokes nothing, `applyFilters`
returns its argument. -/
theorem reads_treat_absent_as_empty_witness :
    hasAction (removeAction (addAction initHooks "x" 0 10) "x" 0) "x" = false
    ∧ (doAction (fun _ => []) (removeAction (addAction initHooks "x" 0 10) "x" 0) "x").trace
        = []
    ∧ (applyFilters (fun _ (n : Nat) => n + 1)
        (removeAction (addAction initHooks "x" 0 10) "x" 0) "x" 4).1 = 4 := by
  have h := reads_treat_absent_as_empty (fun _ (n : Nat) => n + 1) (fun _ => [])
    (removeAction (addAction initHooks "x" 0 10) "x" 0) "x" 4
  have ha := h.1 (Or.inr (by decide))
  have hf := h.2 (Or.inl (by decide))
  exact ⟨ha.2.2.2.2, ha.1, hf.1⟩

/-- C8: `applyFilters` on a tag with no registered filters (unknown tag or
empty sequence) returns its value argument unchanged, and `doAction` on an
unknown tag is a silent no-op returning the state exactly as it was. -/
theorem unknown_tag_noop {α : Type} (interp : Nat → α → α) (env : Env)
    (s : Hooks) (tag : String) (v : α) :
    ((s.filters tag = none ∨ s.filters tag = some []) →
      (applyFilters interp s tag v).1 = v)
    ∧ (s.actions tag = none → doAction env s tag = ⟨[], s, none⟩) := by
  constructor
  · rintro (h | h) <;> simp [applyFilters, h]
  · intro h
    simp [doAction, h]

/-- Witness for C8 at a concrete input: on the empty registry, `applyFilters`
is the identity and `doAction` is a no-op. -/
theorem unknown_tag_noop_witness :
    (applyFilters (fun _ (n : Nat) => n + 1) initHooks "missing" 7).1 = 7
    ∧ doAction (fun _ => []) initHooks "missing" = ⟨[], initHooks, none⟩ := by
  have h := unknown_tag_noop (fun _ (n : Nat) => n + 1) (fun _ => []) initHooks "missing" 7
  exact ⟨h.1 (Or.inl rfl), h.2 rfl⟩

/-- C2: on a tag with a stored filter sequence, `applyFilters` returns the
left-to-right fold of the priority-sorted callbacks over the value, threading
each output into the next input; in particular with exactly the filters `f1`
at priority 5 and `f2` at priority 10 stored (in either registration order)
the result is `f2 (f1 v)`. -/
theorem applyFilters_folds {α : Type} (interp : Nat → α → α) (s : Hooks) (tag : String)
    (v : α) (l : List Entry) (f1 f2 : Nat) :
    (s.filters tag = some l →
      (applyFilters interp s tag v).1
        = (getSortedCallbacks l).foldl (fun acc cb => interp cb acc) v)
    ∧ (s.filters tag = some [⟨5, f1⟩, ⟨10, f2⟩] →
      (applyFilters interp s tag v).1 = interp f2 (interp f1 v))
    ∧ (s.filters tag = some [⟨10, f2⟩, ⟨5, f1⟩] →
      (applyFilters interp s tag v).1 = interp f2 (interp f1 v)) := by
  refine ⟨?_, ?_, ?_⟩
  · intro h
    simp [applyFilters, h, getSortedCallbacks]
  · intro h
    have hs : getSortedEntries [(⟨5, f1⟩ : Entry), ⟨10, f2⟩] = [⟨5, f1⟩, ⟨10, f2⟩] :=
      getSortedEntries_pair_keep _ _ (by simp [leP])
    simp [applyFilters, h, hs]
  · intro h
    have hs : getSortedEntries [(⟨10, f2⟩ : Entry), ⟨5, f1⟩] = [⟨5, f1⟩, ⟨10, f2⟩] :=
      getSortedEntries_pair_swap _ _ (by simp [leP])
    simp [applyFilters, h, hs]

/-- Witness for C2 at a concrete input: with filter 2 registered first at
priority 10 and filter 1 second at priority 5, the fold applies callback 1
first and callback 2 second. -/
theorem applyFilters_folds_witness :
    (applyFilters (fun cb (n : Nat) => n * 10 + cb)
      (addFilter (addFilter initHooks "c" 2 10) "c" 1 5) "c" 0).1 = 12 := by
  have h := applyFilters_folds (fun cb (n : Nat) => n * 10 + cb)
    (addFilter (addFilter initHooks "c" 2 10) "c" 1 5) "c" 0 [] 1 2
  exact (h.2.2 (by decide)).trans (by decide)

unseal List.merge List.mergeSort in
/-- Counterexample to C3 as stated: dispatch does not operate on a snapshot
that leaves the stored state unchanged — the in-place sort of
`_getSortedCallbacks` reorders the stored sequence.  With callbacks registered
at priorities 20 then 5, after `doAction` (with callbacks that mutate nothing)
the stored sequence for the tag differs from what it was before the call. -/
theorem dispatch_mutates_stored_order :
    (doAction (fun _ => []) (addAction (addAction initHooks "x" 0 20) "x" 1 5) "x").state.actions
        "x"
      ≠ (addAction (addAction initHooks "x" 0 20) "x" 1 5).actions "x" := by
  decide

/-- C3 as amended: dispatch with callbacks that do not mutate the registry
changes the stored state only by sorting the dispatched tag's sequence in
place: the tag's sequence becomes its stable priority-sort (so its entries,
and their order within each priority, are preserved), every other tag and the
other mapping are untouched; symmetrically for `applyFilters` on the filters
mapping. -/
theorem dispatch_sorts_in_place {α : Type} (interp : Nat → α → α) (env : Env)
    (s : Hooks) (tag : String) (v : α) :
    ((∀ cb, env cb = []) →
      (doAction env s tag).err = none
      ∧ (doAction env s tag).state.actions tag = (s.actions tag).map getSortedEntries
      ∧ (∀ t, t ≠ tag → (doAction env s tag).state.actions t = s.actions t)
      ∧ (∀ t, (doAction env s tag).state.filters t = s.filters t)
      ∧ (∀ p t, classOf p (((doAction env s tag).state.actions t).getD [])
          = classOf p ((s.actions t).getD [])))
    ∧ ((applyFilters interp s tag v).2.filters tag = (s.filters tag).map getSortedEntries
      ∧ (∀ t, t ≠ tag → (applyFilters interp s tag v).2.filters t = s.filters t)
      ∧ (∀ t, (applyFilters interp s tag v).2.actions t = s.actions t)
      ∧ (∀ p t, classOf p (((applyFilters interp s tag v).2.filters t).getD [])
          = classOf p ((s.filters t).getD []))) := by
  constructor
  · intro hp
    cases ha : s.actions tag with
    | none =>
      have hd : doAction env s tag = ⟨[], s, none⟩ := by
        simp [doAction, ha]
      refine ⟨by simp [hd], by simp [hd, ha], by simp [hd], by simp [hd], by simp [hd]⟩
    | some l =>
      have hd : doAction env s tag
          = ⟨(getSortedEntries l).map Entry.callback, setActions s tag (getSortedEntries l),
              none⟩ := by
        simp [doAction, ha, runCallbacks_pure env hp]
      refine ⟨by simp [hd], by simp [hd, ha], ?_, by simp [hd], ?_⟩
      · intro t ht
        simp [hd, ht]
      · intro p t
        by_cases ht : t = tag
        · subst ht
          simp [hd, ha, classOf_getSortedEntries]
        · simp [hd, ht]
  · cases hf : s.filters tag with
    | none =>
      have hd : applyFilters interp s tag v = (v, s) := by
        simp [applyFilters, hf]
      exact ⟨by simp [hd, hf], by simp [hd], by simp [hd], by simp [hd]⟩
    | some l =>
      have hd : (applyFilters interp s tag v).2 = setFilters s tag (getSortedEntries l) := by
        simp [applyFilters, hf]
      refine ⟨by simp [hd, hf], ?_, by simp [hd], ?_⟩
      · intro t ht
        simp [hd, ht]
      · intro p t
        by_cases ht : t = tag
        · subst ht
          simp [hd, hf, classOf_getSortedEntries]
        · simp [hd, ht]

unseal List.merge List.mergeSort in
/-- Witness for the amended C3 at a concrete input: after dispatching tag `x`
with non-mutating callbacks, the stored sequence is the priority-sorted
permutation of what was registered. -/
theorem dispatch_sorts_in_place_witness :
    (doAction (fun _ => []) (addAction (addAction initHooks "x" 0 20) "x" 1 5) "x").state.actions
        "x"
      = some [⟨5, 1⟩, ⟨20, 0⟩] := by
  have h := dispatch_sorts_in_place (fun _ (n : Nat) => n) (fun _ => [])
    (addAction (addAction initHooks "x" 0 20) "x" 1 5) "x" 0
  exact ((h.1 (fun _ => rfl)).2.1).trans (by decide)

/-- C4: dispatch operates on the callback list computed up front from the
pre-dispatch state: the invoked callbacks are exactly (error-free case), or an
initial segment of (error case), the priority-sorted callbacks of the state as
it was when dispatch started, for every callback environment — so re-entrant
registry mutations cannot change which callbacks run in the pass already in
progress, and a callback not registered at dispatch start (for instance one
added by a running callback) is never invoked in that pass.  Both for
`doAction` and for `applyFilters`. -/
theorem dispatch_uses_snapshot {α : Type} (fenv : FEnv α) (env : Env) (s : Hooks)
    (tag : String) (v : α) :
    ((doAction env s tag).err = none →
      (doAction env s tag).trace = getSortedCallbacks ((s.actions tag).getD []))
    ∧ (∃ k, (doAction env s tag).trace
        = (getSortedCallbacks ((s.actions tag).getD [])).take k)
    ∧ (∀ cb, cb ∉ getSortedCallbacks ((s.actions tag).getD []) →
        cb ∉ (doAction env s tag).trace)
    ∧ ((applyFiltersM fenv s tag v).err = none →
      (applyFiltersM fenv s tag v).trace = getSortedCallbacks ((s.filters tag).getD []))
    ∧ (∃ k, (applyFiltersM fenv s tag v).trace
        = (getSortedCallbacks ((s.filters tag).getD [])).take k)
    ∧ (∀ cb, cb ∉ getSortedCallbacks ((s.filters tag).getD []) →
        cb ∉ (applyFiltersM fenv s tag v).trace) := by
  refine ⟨doAction_trace_of_err_none env s tag, doAction_trace_take env s tag, ?_,
    applyFiltersM_trace_of_err_none fenv s tag v, applyFiltersM_trace_take fenv s tag v, ?_⟩
  · intro cb hcb hmem
    obtain ⟨k, hk⟩ := doAction_trace_take env s tag
    rw [hk] at hmem
    exact hcb (List.take_subset _ _ hmem)
  · intro cb hcb hmem
    obtain ⟨k, hk⟩ := applyFiltersM_trace_take fenv s tag v
    rw [hk] at hmem
    exact hcb (List.take_subset _ _ hmem)

unseal List.merge List.mergeSort in
/-- Witness for C4 at a concrete input: callback 0, registered under `x`,
re-entrantly registers callback 5 under `x` during its own invocation;
the dispatch pass invokes exactly callback 0, not callback 5, although
callback 5 is stored afterwards (eligible for the next dispatch). -/
theorem dispatch_uses_snapshot_witness :
    (doAction (fun cb => if cb = 0 then [Cmd.addA "x" 5 1] else [])
      (addAction initHooks "x" 0 10) "x").trace = [0]
    ∧ 5 ∉ (doAction (fun cb => if cb = 0 then [Cmd.addA "x" 5 1] else [])
        (addAction initHooks "x" 0 10) "x").trace
    ∧ (doAction (fun cb => if cb = 0 then [Cmd.addA "x" 5 1] else [])
        (addAction initHooks "x" 0 10) "x").state.actions "x" = some [⟨10, 0⟩, ⟨1, 5⟩] := by
  have h := dispatch_uses_snapshot (fun _ (n : Nat) => ([], n))
    (fun cb => if cb = 0 then [Cmd.addA "x" 5 1] else [])
    (addAction initHooks "x" 0 10) "x" 0
  refine ⟨(h.1 (by decide)).trans (by decide), ?_, by decide⟩
  exact h.2.2.1 5 (by decide)

/-- The forward error lemma for the action loop: if the first `k` callbacks
run without error and the `k`-th callback raises `e`, the loop stops right
there with error `e`. -/
theorem runCallbacks_err_of_nth (env : Env) :
    ∀ (cs : List Nat) (s : Hooks) (k : Nat) (h : k < cs.length) (e : Nat),
      (runCallbacks env (cs.take k) s).err = none →
      (runCallback env (runCallbacks env (cs.take k) s).state (cs.get ⟨k, h⟩)).2 = some e →
      (runCallbacks env cs s).err = some e ∧
      (runCallbacks env cs s).trace = cs.take (k + 1)
  | [], _, k, h, _, _, _ => absurd h (by simp)
  | cb :: cs, s, 0, _, e, _, hrc => by
    cases hr : runCallback env s cb with
    | mk s' o =>
      have ho : o = some e := by
        have := hrc
        simp only [List.take_zero, runCallbacks, List.get_eq_getElem, List.getElem_cons_zero] at this
        rw [hr] at this
        simpa using this
      subst ho
      constructor <;> simp [runCallbacks, hr]
  | cb :: cs, s, k + 1, h, e, hnone, hrc => by
    cases hr : runCallback env s cb with
    | mk s' o =>
      cases o with
      | some e0 =>
        exfalso
        have := hnone
        simp [List.take_succ_cons, runCallbacks, hr] at this
      | none =>
        have hk : k < cs.length := by
          simpa using Nat.lt_of_succ_lt_succ h
        have hnone' : (runCallbacks env (cs.take k) s').err = none := by
          have := hnone
          simpa [List.take_succ_cons, runCallbacks, hr] using this
        have hrc' : (runCallback env (runCallbacks env (cs.take k) s').state
            (cs.get ⟨k, hk⟩)).2 = some e := by
          have := hrc
          simpa [List.take_succ_cons, runCallbacks, hr, List.get_cons_succ] using this
        obtain ⟨h1, h2⟩ := runCallbacks_err_of_nth env cs s' k hk e hnone' hrc'
        constructor
        · simp [runCallbacks, hr, h1]
        · simp [runCallbacks, hr, h2, List.take_succ_cons]

/-- The forward error lemma for the filter loop. -/
theorem runFCallbacks_err_of_nth {α : Type} (fenv : FEnv α) :
    ∀ (cs : List Nat) (v : α) (s : Hooks) (k : Nat) (h : k < cs.length) (e : Nat),
      (runFCallbacks fenv (cs.take k) v s).err = none →
      (execCmds (runFCallbacks fenv (cs.take k) v s).state
        (fenv (cs.get ⟨k, h⟩) (runFCallbacks fenv (cs.take k) v s).value).1).2 = some e →
      (runFCallbacks fenv cs v s).err = some e ∧
      (runFCallbacks fenv cs v s).trace = cs.take (k + 1)
  | [], _, _, k, h, _, _, _ => absurd h (by simp)
  | cb :: cs, v, s, 0, _, e, _, hrc => by
    cases hr : execCmds s (fenv cb v).1 with
    | mk s' o =>
      have ho : o = some e := by
        have := hrc
        simp only [List.take_zero, runFCallbacks, List.get_eq_getElem, List.getElem_cons_zero] at this
        rw [hr] at this
        simpa using this
      subst ho
      constructor <;> simp [runFCallbacks, hr]
  | cb :: cs, v, s, k + 1, h, e, hnone, hrc => by
    cases hr : execCmds s (fenv cb v).1 with
    | mk s' o =>
      cases o with
      | some e0 =>
        exfalso
        have := hnone
        simp [List.take_succ_cons, runFCallbacks, hr] at this
      | none =>
        have hk : k < cs.length := by
          simpa using Nat.lt_of_succ_lt_succ h
        have hnone' : (runFCallbacks fenv (cs.take k) (fenv cb v).2 s').err = none := by
          have := hnone
          simpa [List.take_succ_cons, runFCallbacks, hr] using this
        have hrc' : (execCmds (runFCallbacks fenv (cs.take k) (fenv cb v).2 s').state
            (fenv (cs.get ⟨k, hk⟩)
              (runFCallbacks fenv (cs.take k) (fenv cb v).2 s').value).1).2 = some e := by
          have := hrc
          simpa [List.take_succ_cons, runFCallbacks, hr, List.get_cons_succ] using this
        obtain ⟨h1, h2⟩ := runFCallbacks_err_of_nth fenv cs (fenv cb v).2 s' k hk e hnone' hrc'
        constructor
        · simp [runFCallbacks, hr, h1]
        · simp [runFCallbacks, hr, h2, List.take_succ_cons]

/-- C6: if the `k`-th callback of a dispatch's priority-ordered callback
sequence (reached without an earlier error) raises error `e`, then the
callbacks after it are not invoked — the invocation trace stops at position
`k + 1` — and the dispatch's caller receives exactly `e`, neither caught nor
wrapped by the registry; both for `doAction` and for `applyFilters`. -/
theorem callback_error_aborts {α : Type} (fenv : FEnv α) (env : Env) (s : Hooks)
    (tag : String) (v : α) (e : Nat) (l : List Entry) (k : Nat) :
    (s.actions tag = some l →
      ∀ h : k < (getSortedCallbacks l).length,
      (runCallbacks env ((getSortedCallbacks l).take k)
        (setActions s tag (getSortedEntries l))).err = none →
      (runCallback env
        (runCallbacks env ((getSortedCallbacks l).take k)
          (setActions s tag (getSortedEntries l))).state
        ((getSortedCallbacks l).get ⟨k, h⟩)).2 = some e →
      (doAction env s tag).err = some e
      ∧ (doAction env s tag).trace = (getSortedCallbacks l).take (k + 1))
    ∧ (s.filters tag = some l →
      ∀ h : k < (getSortedCallbacks l).length,
      (runFCallbacks fenv ((getSortedCallbacks l).take k) v
        (setFilters s tag (getSortedEntries l))).err = none →
      (execCmds
        (runFCallbacks fenv ((getSortedCallbacks l).take k) v
          (setFilters s tag (getSortedEntries l))).state
        (fenv ((getSortedCallbacks l).get ⟨k, h⟩)
          (runFCallbacks fenv ((getSortedCallbacks l).take k) v
            (setFilters s tag (getSortedEntries l))).value).1).2 = some e →
      (applyFiltersM fenv s tag v).err = some e
      ∧ (applyFiltersM fenv s tag v).trace = (getSortedCallbacks l).take (k + 1)) := by
  constructor
  · intro ha h hnone hrc
    have hmain := runCallbacks_err_of_nth env (getSortedCallbacks l)
      (setActions s tag (getSortedEntries l)) k h e hnone hrc
    constructor
    · simpa [doAction, ha, getSortedCallbacks] using hmain.1
    · simpa [doAction, ha, getSortedCallbacks] using hmain.2
  · intro hf h hnone hrc
    have hmain := runFCallbacks_err_of_nth fenv (getSortedCallbacks l) v
      (setFilters s tag (getSortedEntries l)) k h e hnone hrc
    constructor
    · simpa [applyFiltersM, hf, getSortedCallbacks] using hmain.1
    · simpa [applyFiltersM, hf, getSortedCallbacks] using hmain.2

unseal List.merge List.mergeSort in
/-- Witness for C6 at a concrete input: with callbacks 0 (priority 5, raising
error 42) and 1 (priority 10) under tag `x`, `doAction` stops after invoking
callback 0 — callback 1 never runs — and surfaces exactly error 42. -/
theorem callback_error_aborts_witness :
    (doAction (fun cb => if cb = 0 then [Cmd.throwE 42] else [])
      (addAction (addAction initHooks "x" 0 5) "x" 1 10) "x").err = some 42
    ∧ (doAction (fun cb => if cb = 0 then [Cmd.throwE 42] else [])
      (addAction (addAction initHooks "x" 0 5) "x" 1 10) "x").trace = [0] := by
  have h := (callback_error_aborts (fun _ (n : Nat) => ([], n))
    (fun cb => if cb = 0 then [Cmd.throwE 42] else [])
    (addAction (addAction initHooks "x" 0 5) "x" 1 10) "x" 0 42 [⟨5, 0⟩, ⟨10, 1⟩] 0).1
  have hc := h (by decide) (by decide) (by decide) (by decide)
  exact ⟨hc.1, hc.2.trans (by decide)⟩

/-! ### Registration-order ghost for C1

To express "relative registration order" we run the registry in lockstep with
a ghost journal: a mapping from tags to the action entries in chronological
registration order, with removals applied and no sorting ever performed.
Every execution path that registers or removes an action entry (top-level
operations as well as commands run by re-entrant callbacks) updates the ghost
in the same step.  The real component of the instrumented run is proved equal
to the ordinary run. -/

abbrev Ghost := String → List Entry

/-- Ghost effect of registering an action: append to the journal. -/
def gAdd (g : Ghost) (tag : String) (cb : Nat) (p : Int) : Ghost :=
  fun t => if t = tag then g t ++ [⟨p, cb⟩] else g t

/-- Ghost effect of removing an action: filter the journal. -/
def gRem (g : Ghost) (tag : String) (cb : Nat) : Ghost :=
  fun t => if t = tag then (g t).filter (fun e => e.callback != cb) else g t

/-- Ghost effect of one callback command. -/
def gCmd (g : Ghost) : Cmd → Ghost
  | .addA tag cb p => gAdd g tag cb p
  | .remA tag cb => gRem g tag cb
  | _ => g

/-- `execCmds` in lockstep with the ghost journal. -/
def execCmdsG : Hooks → Ghost → List Cmd → (Hooks × Ghost) × Option Nat
  | s, g, [] => ((s, g), none)
  | s, g, c :: cs =>
    match execCmd s c with
    | (s', none) => execCmdsG s' (gCmd g c) cs
    | (s', some e) => ((s', gCmd g c), some e)

/-- The dispatch loop in lockstep with the ghost journal. -/
def runCallbacksG (env : Env) : List Nat → Hooks → Ghost → DispatchResult × Ghost
  | [], s, g => (⟨[], s, none⟩, g)
  | cb :: cs, s, g =>
    match execCmdsG s g (env cb) with
    | ((s', g'), none) =>
      let r := runCallbacksG env cs s' g'
      (⟨cb :: r.1.trace, r.1.state, r.1.err⟩, r.2)
    | ((s', g'), some e) => (⟨[cb], s', some e⟩, g')

/-- `doAction` in lockstep with the ghost journal. -/
def doActionG (env : Env) (s : Hooks) (g : Ghost) (tag : String) :
    DispatchResult × Ghost :=
  match s.actions tag with
  | none => (⟨[], s, none⟩, g)
  | some l =>
    runCallbacksG env ((getSortedEntries l).map Entry.callback)
      (setActions s tag (getSortedEntries l)) g

/-- `applyFilters` (with value-independent effectful callbacks) in lockstep
with the ghost journal; the threaded value, irrelevant to the actions mapping,
is dropped. -/
def applyFG (env : Env) (s : Hooks) (g : Ghost) (tag : String) :
    DispatchResult × Ghost :=
  match s.filters tag with
  | none => (⟨[], s, none⟩, g)
  | some l =>
    runCallbacksG env ((getSortedEntries l).map Entry.callback)
      (setFilters s tag (getSortedEntries l)) g

/-- A top-level registry operation, as issued by client code. -/
inductive Op where
  | addA (tag : String) (cb : Nat) (p : Int)
  | addF (tag : String) (cb : Nat) (p : Int)
  | remA (tag : String) (cb : Nat)
  | remF (tag : String) (cb : Nat)
  | doA (tag : String)
  | applyF (tag : String)

/-- Effect of one top-level operation on the registry state (dispatches use
the callback environment; a dispatch aborted by an error leaves the state as
reached at the abort point, as an uncaught JS exception would). -/
def runOp (env : Env) (s : Hooks) : Op → Hooks
  | .addA tag cb p => addAction s tag cb p
  | .addF tag cb p => addFilter s tag cb p
  | .remA tag cb => removeAction s tag cb
  | .remF tag cb => removeFilter s tag cb
  | .doA tag => (doAction env s tag).state
  | .applyF tag => (applyFiltersM (fun cb (v : Unit) => (env cb, v)) s tag ()).state

/-- State reached from the fresh registry by a sequence of operations. -/
def runOps (env : Env) (ops : List Op) : Hooks := ops.foldl (runOp env) initHooks

/-- `runOp` in lockstep with the ghost journal. -/
def runOpG (env : Env) : Hooks × Ghost → Op → Hooks × Ghost
  | (s, g), .addA tag cb p => (addAction s tag cb p, gAdd g tag cb p)
  | (s, g), .addF tag cb p => (addFilter s tag cb p, g)
  | (s, g), .remA tag cb => (removeAction s tag cb, gRem g tag cb)
  | (s, g), .remF tag cb => (removeFilter s tag cb, g)
  | (s, g), .doA tag => ((doActionG env s g tag).1.state, (doActionG env s g tag).2)
  | (s, g), .applyF tag => ((applyFG env s g tag).1.state, (applyFG env s g tag).2)

/-- The instrumented run: real state and ghost journal together. -/
def runOpsG (env : Env) (ops : List Op) : Hooks × Ghost :=
  ops.foldl (runOpG env) (initHooks, fun _ => [])

theorem execCmdsG_fst : ∀ (cs : List Cmd) (s : Hooks) (g : Ghost),
    ((execCmdsG s g cs).1.1, (execCmdsG s g cs).2) = execCmds s cs
  | [], _, _ => rfl
  | c :: cs, s, g => by
    cases hc : execCmd s c with
    | mk s' o =>
      cases o with
      | none => simp [execCmdsG, execCmds, hc, execCmdsG_fst cs s' (gCmd g c)]
      | some e => simp [execCmdsG, execCmds, hc]

theorem runCallbacksG_fst (env : Env) : ∀ (cs : List Nat) (s : Hooks) (g : Ghost),
    (runCallbacksG env cs s g).1 = runCallbacks env cs s
  | [], _, _ => rfl
  | cb :: cs, s, g => by
    cases hce : execCmdsG s g (env cb) with
    | mk q o =>
      cases q with
      | mk s' g' =>
        have hproj := execCmdsG_fst (env cb) s g
        rw [hce] at hproj
        cases o with
        | none =>
          have hrc : runCallback env s cb = (s', none) := by
            rw [runCallback, ← hproj]
          simp [runCallbacksG, runCallbacks, hce, hrc, runCallbacksG_fst env cs s' g']
        | some e =>
          have hrc : runCallback env s cb = (s', some e) := by
            rw [runCallback, ← hproj]
          simp [runCallbacksG, runCallbacks, hce, hrc]

theorem doActionG_fst (env : Env) (s : Hooks) (g : Ghost) (tag : String) :
    (doActionG env s g tag).1 = doAction env s tag := by
  cases ha : s.actions tag with
  | none => simp [doActionG, doAction, ha]
  | some l => simp [doActionG, doAction, ha, runCallbacksG_fst]

/-- `applyFilters` with value-independent effectful callbacks coincides with
the action dispatch loop on trace, state and error. -/
theorem runFCallbacks_unit (env : Env) : ∀ (cs : List Nat) (s : Hooks),
    runFCallbacks (fun cb (v : Unit) => (env cb, v)) cs () s
      = ⟨(runCallbacks env cs s).trace, (), (runCallbacks env cs s).state,
          (runCallbacks env cs s).err⟩
  | [], _ => rfl
  | cb :: cs, s => by
    cases hrc : runCallback env s cb with
    | mk s' o =>
      have hex : execCmds s (env cb) = (s', o) := hrc
      cases o with
      | none => simp [runFCallbacks, runCallbacks, hrc, hex, runFCallbacks_unit env cs s']
      | some e => simp [runFCallbacks, runCallbacks, hrc, hex]

theorem applyFG_fst (env : Env) (s : Hooks) (g : Ghost) (tag : String) :
    (applyFG env s g tag).1.state
      = (applyFiltersM (fun cb (v : Unit) => (env cb, v)) s tag ()).state := by
  cases hf : s.filters tag with
  | none => simp [applyFG, applyFiltersM, hf]
  | some l => simp [applyFG, applyFiltersM, hf, runFCallbacks_unit, runCallbacksG_fst]

theorem runOpG_fst (env : Env) (s : Hooks) (g : Ghost) (op : Op) :
    (runOpG env (s, g) op).1 = runOp env s op := by
  cases op with
  | addA tag cb p => rfl
  | addF tag cb p => rfl
  | remA tag cb => rfl
  | remF tag cb => rfl
  | doA tag => simp [runOpG, runOp, doActionG_fst]
  | applyF tag => simp [runOpG, runOp, applyFG_fst]

theorem foldG_fst (env : Env) : ∀ (ops : List Op) (s : Hooks) (g : Ghost),
    (ops.foldl (runOpG env) (s, g)).1 = ops.foldl (runOp env) s
  | [], _, _ => rfl
  | op :: ops, s, g => by
    have h1 : runOpG env (s, g) op = (runOp env s op, (runOpG env (s, g) op).2) := by
      rw [← runOpG_fst env s g op]
    rw [List.foldl_cons, List.foldl_cons, h1, foldG_fst env ops _ _]

/-- The real component of the instrumented run is the ordinary run. -/
theorem runOpsG_fst (env : Env) (ops : List Op) : (runOpsG env ops).1 = runOps env ops :=
  foldG_fst env ops initHooks (fun _ => [])

/-- The simulation invariant: for every tag and priority, the stored action
sequence agrees with the ghost registration journal on the sub-sequence at
that priority (hence its per-priority order is the chronological registration
order). -/
def InvG (s : Hooks) (g : Ghost) : Prop :=
  ∀ t p, classOf p ((s.actions t).getD []) = classOf p (g t)

theorem invG_init : InvG initHooks (fun _ => []) := fun _ _ => rfl

theorem invG_addAction {s : Hooks} {g : Ghost} (h : InvG s g) (tag : String)
    (cb : Nat) (p : Int) : InvG (addAction s tag cb p) (gAdd g tag cb p) := by
  intro t q
  by_cases ht : t = tag
  · subst ht
    simp [addAction, gAdd, classOf_append, h t q]
  · simp [addAction, gAdd, ht, h t q]

theorem invG_addFilter {s : Hooks} {g : Ghost} (h : InvG s g) (tag : String)
    (cb : Nat) (p : Int) : InvG (addFilter s tag cb p) g := by
  intro t q
  simpa [addFilter] using h t q

theorem invG_removeAction {s : Hooks} {g : Ghost} (h : InvG s g) (tag : String)
    (cb : Nat) : InvG (removeAction s tag cb) (gRem g tag cb) := by
  intro t q
  by_cases ht : t = tag
  · subst ht
    cases ha : s.actions t with
    | none =>
      have h0 := h t q
      rw [ha] at h0
      simp only [Option.getD_none] at h0
      have hrem : removeAction s t cb = s := by
        simp [removeAction, ha]
      rw [hrem, ha]
      simp only [Option.getD_none, gRem, eq_self_iff_true, if_true, classOf_filter, ← h0]
      simp [classOf]
    | some l =>
      have h0 := h t q
      rw [ha] at h0
      simp only [Option.getD_some] at h0
      have hrem : removeAction s t cb
          = setActions s t (l.filter (fun e => e.callback != cb)) := by
        simp [removeAction, ha]
      rw [hrem]
      simp only [setActions_actions, eq_self_iff_true, if_true, Option.getD_some, gRem,
        classOf_filter, h0]
  · cases ha : s.actions tag with
    | none => simpa [removeAction, ha, gRem, ht] using h t q
    | some l => simpa [removeAction, ha, gRem, ht] using h t q

theorem invG_removeFilter {s : Hooks} {g : Ghost} (h : InvG s g) (tag : String)
    (cb : Nat) : InvG (removeFilter s tag cb) g := by
  intro t q
  cases hf : s.filters tag with
  | none => simpa [removeFilter, hf] using h t q
  | some l => simpa [removeFilter, hf] using h t q

theorem invG_gCmd {s : Hooks} {g : Ghost} (h : InvG s g) (c : Cmd) :
    InvG (execCmd s c).1 (gCmd g c) := by
  cases c with
  | addA tag cb p => exact invG_addAction h tag cb p
  | addF tag cb p => exact invG_addFilter h tag cb p
  | remA tag cb => exact invG_removeAction h tag cb
  | remF tag cb => exact invG_removeFilter h tag cb
  | throwE e => exact h

theorem invG_execCmdsG : ∀ (cs : List Cmd) (s : Hooks) (g : Ghost), InvG s g →
    InvG (execCmdsG s g cs).1.1 (execCmdsG s g cs).1.2
  | [], _, _, h => h
  | c :: cs, s, g, h => by
    cases hc : execCmd s c with
    | mk s' o =>
      have h' : InvG s' (gCmd g c) := by
        have := invG_gCmd h c
        rwa [hc] at this
      cases o with
      | none => simpa [execCmdsG, hc] using invG_execCmdsG cs s' (gCmd g c) h'
      | some e => simpa [execCmdsG, hc] using h'

theorem invG_runCallbacksG (env : Env) : ∀ (cs : List Nat) (s : Hooks) (g : Ghost),
    InvG s g → InvG (runCallbacksG env cs s g).1.state (runCallbacksG env cs s g).2
  | [], _, _, h => h
  | cb :: cs, s, g, h => by
    cases hce : execCmdsG s g (env cb) with
    | mk q o =>
      cases q with
      | mk s' g' =>
        have h' : InvG s' g' := by
          have := invG_execCmdsG (env cb) s g h
          rwa [hce] at this
        cases o with
        | none => simpa [runCallbacksG, hce] using invG_runCallbacksG env cs s' g' h'
        | some e => simpa [runCallbacksG, hce] using h'

theorem invG_sortTag {s : Hooks} {g : Ghost} (h : InvG s g) {tag : String}
    {l : List Entry} (ha : s.actions tag = some l) :
    InvG (setActions s tag (getSortedEntries l)) g := by
  intro t q
  by_cases ht : t = tag
  · subst ht
    have h0 := h t q
    rw [ha] at h0
    simpa [classOf_getSortedEntries] using h0
  · simpa [ht] using h t q

theorem invG_setFilters {s : Hooks} {g : Ghost} (h : InvG s g) (tag : String)
    (l' : List Entry) : InvG (setFilters s tag l') g := by
  intro t q
  simpa using h t q

theorem invG_doActionG (env : Env) {s : Hooks} {g : Ghost} (h : InvG s g)
    (tag : String) : InvG (doActionG env s g tag).1.state (doActionG env s g tag).2 := by
  cases ha : s.actions tag with
  | none => simpa [doActionG, ha] using h
  | some l =>
    have h1 := invG_sortTag h ha
    simpa [doActionG, ha] using invG_runCallbacksG env _ _ _ h1

theorem invG_applyFG (env : Env) {s : Hooks} {g : Ghost} (h : InvG s g)
    (tag : String) : InvG (applyFG env s g tag).1.state (applyFG env s g tag).2 := by
  cases hf : s.filters tag with
  | none => simpa [applyFG, hf] using h
  | some l =>
    have h1 := invG_setFilters h tag (getSortedEntries l)
    simpa [applyFG, hf] using invG_runCallbacksG env _ _ _ h1

theorem invG_runOpG (env : Env) {s : Hooks} {g : Ghost} (h : InvG s g) (op : Op) :
    InvG (runOpG env (s, g) op).1 (runOpG env (s, g) op).2 := by
  cases op with
  | addA tag cb p => exact invG_addAction h tag cb p
  | addF tag cb p => exact invG_addFilter h tag cb p
  | remA tag cb => exact invG_removeAction h tag cb
  | remF tag cb => exact invG_removeFilter h tag cb
  | doA tag => exact invG_doActionG env h tag
  | applyF tag => exact invG_applyFG env h tag

theorem invG_foldG (env : Env) : ∀ (ops : List Op) (s : Hooks) (g : Ghost), InvG s g →
    InvG (ops.foldl (runOpG env) (s, g)).1 (ops.foldl (runOpG env) (s, g)).2
  | [], _, _, h => h
  | op :: ops, s, g, h => by
    have h' := invG_runOpG env h op
    rw [List.foldl_cons]
    exact invG_foldG env ops _ _ h'

theorem invG_runOpsG (env : Env) (ops : List Op) :
    InvG (runOpsG env ops).1 (runOpsG env ops).2 :=
  invG_foldG env ops initHooks (fun _ => []) invG_init

/-- C1: for every sequence of top-level operations (registrations with
arbitrarily interleaved removals, dispatches and filter operations, under any
re-entrant callback behaviour) followed by `doAction` on a tag: the
instrumented run's real component is the ordinary run; an error-free dispatch
invokes exactly the priority-sorted callbacks of the reached state; that
sorted sequence has non-decreasing priorities; and within each priority it is
exactly the ghost journal's chronological registration order. -/
theorem doAction_invokes_in_priority_then_registration_order (env : Env)
    (ops : List Op) (tag : String) :
    (runOpsG env ops).1 = runOps env ops
    ∧ ((doAction env (runOps env ops) tag).err = none →
        (doAction env (runOps env ops) tag).trace
          = getSortedCallbacks (((runOps env ops).actions tag).getD []))
    ∧ (getSortedEntries (((runOps env ops).actions tag).getD [])).Pairwise
        (fun a b => a.priority ≤ b.priority)
    ∧ (∀ p, classOf p (getSortedEntries (((runOps env ops).actions tag).getD []))
        = classOf p ((runOpsG env ops).2 tag)) := by
  refine ⟨runOpsG_fst env ops, doAction_trace_of_err_none env _ tag,
    sorted_getSortedEntries _, ?_⟩
  intro p
  have hinv := invG_runOpsG env ops tag p
  rw [runOpsG_fst env ops] at hinv
  rw [classOf_getSortedEntries]
  exact hinv

unseal List.merge List.mergeSort in
/-- Witness for C1 at a concrete input: after registering callback 0 at
priority 20, callback 1 at priority 5 and callback 2 at priority 20 under `x`,
`doAction` invokes callback 1 first (lowest priority) and then callbacks 0 and
2 in their registration order. -/
theorem doAction_invokes_in_priority_then_registration_order_witness :
    (doAction (fun _ => [])
      (runOps (fun _ => []) [Op.addA "x" 0 20, Op.addA "x" 1 5, Op.addA "x" 2 20])
      "x").trace = [1, 0, 2] := by
  have h := doAction_invokes_in_priority_then_registration_order (fun _ => [])
    [Op.addA "x" 0 20, Op.addA "x" 1 5, Op.addA "x" 2 20] "x"
  exact (h.2.1 (by decide)).trans (by decide)

end JsHooks
